import Mathlib

/-!
# Slate drawing app — verification of the spec against the source

Shallow embedding of the parts of the `ijon007/slate` repository that the
claims touch:

* the element data model (`src/lib/drawing/types.ts`),
* the zustand store actions (`src/lib/storage/store.ts`): element
  mutation, selection, and the snapshot-based history manager,
* the geometry kernel and SVG export (`src/lib/drawing/utils.ts`),
* the box-selection completion branch of `handleMouseUp`
  (`Canvas/colorUtils.ts`).

JS numbers are modelled as rationals (`ℚ`); `Math.sqrt` comparisons are
modelled with `Real.sqrt` over the rational operands.
-/

namespace Slate

/-! ## Data model (`src/lib/drawing/types.ts`) -/

/-- Source `Point` from `types.ts`. -/
structure Point where
  x : ℚ
  y : ℚ
deriving DecidableEq, Repr

inductive ToolType where
  | selection | rectangle | circle | arrow | line | text | freehand
deriving DecidableEq, Repr

inductive StrokeStyle where
  | solid | dashed | dotted
deriving DecidableEq, Repr

inductive FillPattern where
  | solid | crossHatch | grid | dotted
deriving DecidableEq, Repr

inductive Sloppiness where
  | subtle | moderate | high
deriving DecidableEq, Repr

inductive EdgeRounding where
  | sharp | rounded
deriving DecidableEq, Repr

/-- The fields of `BaseElement`, shared by every variant of the
`DrawingElement` tagged union. -/
structure BaseElement where
  id : String
  x : ℚ
  y : ℚ
  strokeColor : String
  fillColor : String
  strokeWidth : ℚ
  strokeStyle : StrokeStyle
  opacity : ℚ
  angle : ℚ
  fillPattern : FillPattern
  sloppiness : Sloppiness
  edgeRounding : EdgeRounding
deriving DecidableEq, Repr

/-- Source `DrawingElement`: the closed tagged union of `types.ts`, discriminated by
`type`; each variant carries the base fields plus its own. -/
inductive DrawingElement where
  | rectangle (base : BaseElement) (width height : ℚ)
  | circle (base : BaseElement) (width height : ℚ)
  | line (base : BaseElement) (x2 y2 : ℚ)
  | arrow (base : BaseElement) (x2 y2 : ℚ)
  | text (base : BaseElement) (textContent : String) (fontSize : ℚ)
      (fontFamily : String) (width height : ℚ)
  | freehand (base : BaseElement) (points : List Point)
deriving DecidableEq, Repr

/-- The `BaseElement` part of any variant. -/
def DrawingElement.base : DrawingElement → BaseElement
  | .rectangle b _ _ => b
  | .circle b _ _ => b
  | .line b _ _ => b
  | .arrow b _ _ => b
  | .text b _ _ _ _ _ => b
  | .freehand b _ => b

/-- The `id` field (common to all variants). -/
def DrawingElement.id (el : DrawingElement) : String := el.base.id

/-- Source `CanvasState` from `types.ts`. -/
structure CanvasState where
  zoom : ℚ
  offsetX : ℚ
  offsetY : ℚ
deriving DecidableEq, Repr

/-- Source `HistoryState` from `types.ts`: snapshots are full ordered copies of the
element collection. -/
structure HistoryState where
  past : List (List DrawingElement)
  present : List DrawingElement
  future : List (List DrawingElement)
deriving DecidableEq, Repr

/-- Source `Note` from `store.ts` (numbers as rationals). -/
structure Note where
  id : String
  title : String
  content : String
  createdAt : ℚ
  updatedAt : ℚ
deriving DecidableEq, Repr

/-! ## Constants (`src/lib/drawing/constants.ts`) -/

def HISTORY_LIMIT : Nat := 50
def MIN_ZOOM : ℚ := 1 / 10
def MAX_ZOOM : ℚ := 5
def DEFAULT_ZOOM : ℚ := 1
def DEFAULT_STROKE_COLOR : String := "#FFFFFF"
def DEFAULT_FILL_COLOR : String := "#FFFFFF"

/-! ## The store (`src/lib/storage/store.ts`)

The zustand store is a single mutable record; each action is embedded as a
pure state transformer `AppState → AppState` (the `set`/`get` calls of the
source become explicit state passing). -/

/-- The store's state (`AppState` in `store.ts`, data fields only). -/
structure AppState where
  elements : List DrawingElement
  selectedTool : ToolType
  selectedElementIds : List String
  canvasState : CanvasState
  history : HistoryState
  strokeColor : String
  fillColor : String
  canvasBackgroundColorDark : String
  canvasBackgroundColorLight : String
  canvasLocked : Bool
  notes : List Note
deriving DecidableEq, Repr

/-- The store's initial state (`store.ts`, the object literal passed to
`create`). -/
def initialState : AppState where
  elements := []
  selectedTool := .selection
  selectedElementIds := []
  canvasState := { zoom := DEFAULT_ZOOM, offsetX := 0, offsetY := 0 }
  history := { past := [], present := [], future := [] }
  strokeColor := DEFAULT_STROKE_COLOR
  fillColor := DEFAULT_FILL_COLOR
  canvasBackgroundColorDark := "#0a0a0a"
  canvasBackgroundColorLight := "#ffffff"
  canvasLocked := false
  notes := []

/-- Source `pushState` (`store.ts` lines 198–214): append the current `present` to
`past`, keep only the last `HISTORY_LIMIT` entries (`newPast.slice(-HISTORY_LIMIT)`
is `drop (length - HISTORY_LIMIT)`), set `present` to the live elements and
clear `future`. -/
def pushState (s : AppState) : AppState :=
  let newPast := s.history.past ++ [s.history.present]
  let trimmedPast :=
    if newPast.length > HISTORY_LIMIT then
      newPast.drop (newPast.length - HISTORY_LIMIT)
    else newPast
  { s with history := { past := trimmedPast, present := s.elements, future := [] } }

/-- Source `addElement` (`store.ts` lines 95–100): append the element, then
checkpoint. -/
def addElement (s : AppState) (element : DrawingElement) : AppState :=
  pushState { s with elements := s.elements ++ [element] }

/-- Source `updateElement` (`store.ts` lines 102–108). The TS patch
`Partial<DrawingElement>` applied by object spread `{ ...el, ...updates }` is
modelled as the field-override function `updates` applied to the matched
element. No checkpoint is taken. -/
def updateElement (s : AppState) (id : String)
    (updates : DrawingElement → DrawingElement) : AppState :=
  { s with
    elements := s.elements.map (fun el => if el.id = id then updates el else el) }

/-- Source `deleteElement` (`store.ts` lines 110–116): drop the element and its id
from the selection in the same `set`, then checkpoint. -/
def deleteElement (s : AppState) (id : String) : AppState :=
  pushState
    { s with
      elements := s.elements.filter (fun el => el.id != id)
      selectedElementIds := s.selectedElementIds.filter (fun eid => eid != id) }

/-- Source `deleteElements` (`store.ts` lines 118–124): batch form of
`deleteElement` (`ids.includes` is `List.contains`). -/
def deleteElements (s : AppState) (ids : List String) : AppState :=
  pushState
    { s with
      elements := s.elements.filter (fun el => !(ids.contains el.id))
      selectedElementIds := s.selectedElementIds.filter (fun eid => !(ids.contains eid)) }

/-- Source `setSelectedElementIds` (`store.ts` lines 130–132). -/
def setSelectedElementIds (s : AppState) (ids : List String) : AppState :=
  { s with selectedElementIds := ids }

/-- Source `clearCanvas` (`store.ts` lines 134–140). -/
def clearCanvas (s : AppState) : AppState :=
  pushState { s with elements := [], selectedElementIds := [] }

/-- Source `setElements` (`store.ts` lines 142–145): bulk replace, then
checkpoint. -/
def setElements (s : AppState) (elements : List DrawingElement) : AppState :=
  pushState { s with elements := elements }

/-- Source `undo` (`store.ts` lines 216–232). The source guards on
`past.length === 0` and reads `past[past.length - 1]` / `past.slice(0, -1)`;
matching on `getLast?` expresses exactly that. -/
def undo (s : AppState) : AppState :=
  match s.history.past.getLast? with
  | none => s
  | some previous =>
    { s with
      elements := previous
      history :=
        { past := s.history.past.dropLast
          present := previous
          future := s.history.present :: s.history.future } }

/-- Source `redo` (`store.ts` lines 234–250): guard on `future.length === 0`, shift
`future[0]`. -/
def redo (s : AppState) : AppState :=
  match s.history.future with
  | [] => s
  | next :: newFuture =>
    { s with
      elements := next
      history :=
        { past := s.history.past ++ [s.history.present]
          present := next
          future := newFuture } }

/-- Source `canUndo` (`store.ts` lines 252–254): `past.length > 0`. -/
def canUndo (s : AppState) : Bool :=
  decide (s.history.past.length > 0)

/-- Source `canRedo` (`store.ts` lines 256–258). -/
def canRedo (s : AppState) : Bool :=
  decide (s.history.future.length > 0)

/-! ## Geometry kernel (`src/lib/drawing/utils.ts`) -/

/-- The AABB record returned by `getElementBounds` / `getBoundingBox`. -/
structure Bounds where
  minX : ℚ
  minY : ℚ
  maxX : ℚ
  maxY : ℚ
deriving DecidableEq, Repr

/-- Source `getElementBounds` (`utils.ts` lines 116–154): per-type AABB. For
freehand, `Math.min(...xs)` over the nonempty coordinate list is the fold of
`min` from the first coordinate. -/
def getElementBounds : DrawingElement → Bounds
  | .rectangle b width height =>
      { minX := b.x, minY := b.y, maxX := b.x + width, maxY := b.y + height }
  | .circle b width height =>
      { minX := b.x, minY := b.y, maxX := b.x + width, maxY := b.y + height }
  | .text b _ _ _ width height =>
      { minX := b.x, minY := b.y, maxX := b.x + width, maxY := b.y + height }
  | .line b x2 y2 =>
      { minX := min b.x x2, minY := min b.y y2, maxX := max b.x x2, maxY := max b.y y2 }
  | .arrow b x2 y2 =>
      { minX := min b.x x2, minY := min b.y y2, maxX := max b.x x2, maxY := max b.y y2 }
  | .freehand _ [] => { minX := 0, minY := 0, maxX := 0, maxY := 0 }
  | .freehand _ (p :: ps) =>
      { minX := ps.foldl (fun m q => min m q.x) p.x
        minY := ps.foldl (fun m q => min m q.y) p.y
        maxX := ps.foldl (fun m q => max m q.x) p.x
        maxY := ps.foldl (fun m q => max m q.y) p.y }

/-- Source `getBoundingBox` (`utils.ts` lines 156–173): union AABB; empty input
yields the zero box, otherwise `Math.min`/`Math.max` over the per-element
bounds (fold from the first element's bounds). -/
def getBoundingBox (elements : List DrawingElement) : Bounds :=
  match elements.map getElementBounds with
  | [] => { minX := 0, minY := 0, maxX := 0, maxY := 0 }
  | b :: bs =>
      { minX := bs.foldl (fun m c => min m c.minX) b.minX
        minY := bs.foldl (fun m c => min m c.minY) b.minY
        maxX := bs.foldl (fun m c => max m c.maxX) b.maxX
        maxY := bs.foldl (fun m c => max m c.maxY) b.maxY }

/-- Source `elementIntersectsBox` (`utils.ts` lines 175–190): AABB overlap on both
axes. -/
def elementIntersectsBox (element : DrawingElement)
    (boxMinX boxMinY boxMaxX boxMaxY : ℚ) : Bool :=
  let bounds := getElementBounds element
  let intersectsX := decide (bounds.maxX ≥ boxMinX) && decide (bounds.minX ≤ boxMaxX)
  let intersectsY := decide (bounds.maxY ≥ boxMinY) && decide (bounds.minY ≤ boxMaxY)
  intersectsX && intersectsY

/-- Source `toScreenCoordinates` (`utils.ts` lines 214–224): `(p - offset) * zoom`. -/
def toScreenCoordinates (point : Point) (zoom offsetX offsetY : ℚ) : Point :=
  { x := (point.x - offsetX) * zoom, y := (point.y - offsetY) * zoom }

/-- Source `toWorldCoordinates` (`utils.ts` lines 226–236): `p / zoom + offset`. -/
def toWorldCoordinates (point : Point) (zoom offsetX offsetY : ℚ) : Point :=
  { x := point.x / zoom + offsetX, y := point.y / zoom + offsetY }

/-- Source `pointOnLine` (`utils.ts` lines 38–75). All arithmetic is rational; the
final `Math.sqrt(dx*dx + dy*dy) < threshold` comparison is the real-number
proposition over the rational operands. -/
def pointOnLine (point : Point) (x1 y1 x2 y2 : ℚ) (threshold : ℚ := 5) : Prop :=
  let A := point.x - x1
  let B := point.y - y1
  let C := x2 - x1
  let D := y2 - y1
  let dot := A * C + B * D
  let lenSq := C * C + D * D
  let param : ℚ := if lenSq ≠ 0 then dot / lenSq else -1
  let xx : ℚ := if param < 0 then x1 else if param > 1 then x2 else x1 + param * C
  let yy : ℚ := if param < 0 then y1 else if param > 1 then y2 else y1 + param * D
  let dx := point.x - xx
  let dy := point.y - yy
  Real.sqrt ((dx * dx + dy * dy : ℚ) : ℝ) < ((threshold : ℚ) : ℝ)

/-! ## SVG export (`utils.ts` lines 238–300)

The arrow branch calls `Math.atan2` / `Math.cos` / `Math.sin`; those
transcendental operations are not rational, so the export is parametrised by
an abstract `TrigOps` interpretation, consulted only by the arrow branch. -/

/-- Abstract interpretation of the `Math` trigonometric functions used by the
arrow branch of `elementsToSVG`. -/
structure TrigOps where
  cos : ℚ → ℚ
  sin : ℚ → ℚ
  atan2 : ℚ → ℚ → ℚ
  pi : ℚ

/-- Rendering of a JS number into a template string. Faithful to JS for
integral values (the only values the claims evaluate); non-integral rationals
are rendered as `num/den`. -/
def numStr (q : ℚ) : String :=
  if q.den = 1 then toString q.num else toString q.num ++ "/" ++ toString q.den

/-- Source `escapeXml` (`utils.ts` lines 293–300): the five global regex
replacements, in source order. -/
def escapeXml (text : String) : String :=
  ((((text.replace ("&") ("&amp;")).replace ("<") ("&lt;")).replace (">")
      ("&gt;")).replace ("\"") ("&quot;")).replace ("\x27") ("&apos;")

/-- The tag emitted for one element by the `forEach` body of `elementsToSVG`
(`utils.ts` lines 246–287). -/
def elementTag (trig : TrigOps) : DrawingElement → String
  | .rectangle b width height =>
      "<rect x=\"" ++ numStr b.x ++ "\" y=\"" ++ numStr b.y ++ "\" width=\"" ++
        numStr width ++ "\" height=\"" ++ numStr height ++ "\" fill=\"" ++
        b.fillColor ++ "\" stroke=\"" ++ b.strokeColor ++ "\" stroke-width=\"" ++
        numStr b.strokeWidth ++ "\" opacity=\"" ++ numStr b.opacity ++ "\"/>"
  | .circle b width height =>
      let cx := b.x + width / 2
      let cy := b.y + height / 2
      let r := max width height / 2
      "<circle cx=\"" ++ numStr cx ++ "\" cy=\"" ++ numStr cy ++ "\" r=\"" ++
        numStr r ++ "\" fill=\"" ++ b.fillColor ++ "\" stroke=\"" ++
        b.strokeColor ++ "\" stroke-width=\"" ++ numStr b.strokeWidth ++
        "\" opacity=\"" ++ numStr b.opacity ++ "\"/>"
  | .line b x2 y2 =>
      "<line x1=\"" ++ numStr b.x ++ "\" y1=\"" ++ numStr b.y ++ "\" x2=\"" ++
        numStr x2 ++ "\" y2=\"" ++ numStr y2 ++ "\" stroke=\"" ++ b.strokeColor ++
        "\" stroke-width=\"" ++ numStr b.strokeWidth ++ "\" opacity=\"" ++
        numStr b.opacity ++ "\"/>"
  | .arrow b ex ey =>
      let dx := ex - b.x
      let dy := ey - b.y
      let angle := trig.atan2 dy dx
      let arrowLength : ℚ := 10
      let arrowAngle := trig.pi / 6
      let hx1 := ex - arrowLength * trig.cos (angle - arrowAngle)
      let hy1 := ey - arrowLength * trig.sin (angle - arrowAngle)
      let hx2 := ex - arrowLength * trig.cos (angle + arrowAngle)
      let hy2 := ey - arrowLength * trig.sin (angle + arrowAngle)
      "<line x1=\"" ++ numStr b.x ++ "\" y1=\"" ++ numStr b.y ++ "\" x2=\"" ++
        numStr ex ++ "\" y2=\"" ++ numStr ey ++ "\" stroke=\"" ++ b.strokeColor ++
        "\" stroke-width=\"" ++ numStr b.strokeWidth ++ "\" opacity=\"" ++
        numStr b.opacity ++ "\"/>" ++
      "<polygon points=\"" ++ numStr ex ++ "," ++ numStr ey ++ " " ++
        numStr hx1 ++ "," ++ numStr hy1 ++ " " ++ numStr hx2 ++ "," ++
        numStr hy2 ++ "\" fill=\"" ++ b.strokeColor ++ "\" opacity=\"" ++
        numStr b.opacity ++ "\"/>"
  | .text b textContent fontSize fontFamily _ _ =>
      "<text x=\"" ++ numStr b.x ++ "\" y=\"" ++ numStr (b.y + fontSize) ++
        "\" font-family=\"" ++ fontFamily ++ "\" font-size=\"" ++
        numStr fontSize ++ "\" fill=\"" ++ b.strokeColor ++ "\" opacity=\"" ++
        numStr b.opacity ++ "\">" ++ escapeXml textContent ++ "</text>"
  | .freehand b points =>
      if points.length > 0 then
        let path := String.intercalate (" ")
          (points.enum.map (fun ip =>
            (if ip.1 = 0 then "M" else "L") ++ " " ++ numStr ip.2.x ++ " " ++
              numStr ip.2.y))
        "<path d=\"" ++ path ++ "\" fill=\"none\" stroke=\"" ++ b.strokeColor ++
          "\" stroke-width=\"" ++ numStr b.strokeWidth ++ "\" opacity=\"" ++
          numStr b.opacity ++ "\"/>"
      else ""

/-- Source `elementsToSVG` (`utils.ts` lines 238–291): union AABB padded by 20 on
every side for the viewBox, one tag per element, a single `<svg>` root. -/
def elementsToSVG (trig : TrigOps) (elements : List DrawingElement) : String :=
  let bounds := getBoundingBox elements
  let padding : ℚ := 20
  let width := bounds.maxX - bounds.minX + padding * 2
  let height := bounds.maxY - bounds.minY + padding * 2
  "<svg xmlns=\"http://www.w3.org/2000/svg\" width=\"" ++ numStr width ++
      "\" height=\"" ++ numStr height ++ "\" viewBox=\"" ++
      numStr (bounds.minX - padding) ++ " " ++ numStr (bounds.minY - padding) ++
      " " ++ numStr width ++ " " ++ numStr height ++ "\">" ++
    String.join (elements.map (elementTag trig)) ++
    "</svg>"

/-! ## Box-selection completion (`Canvas/colorUtils.ts`, `handleMouseUp`
lines 534–570)

The branch computes the box AABB from the gesture's start/end points, filters
the elements through `elementIntersectsBox`, and either replaces the
selection with the intersecting ids or (shift held) appends each id not
already present. The function returns the new `selectedElementIds`. -/

def boxSelectionResult (elements : List DrawingElement)
    (selectedElementIds : List String)
    (boxSelectionStart boxSelectionEnd : Point) (shiftKey : Bool) : List String :=
  let boxMinX := min boxSelectionStart.x boxSelectionEnd.x
  let boxMinY := min boxSelectionStart.y boxSelectionEnd.y
  let boxMaxX := max boxSelectionStart.x boxSelectionEnd.x
  let boxMaxY := max boxSelectionStart.y boxSelectionEnd.y
  let intersectingElements := elements.filter
    (fun element => elementIntersectsBox element boxMinX boxMinY boxMaxX boxMaxY)
  let intersectingIds := intersectingElements.map (fun el => el.id)
  if shiftKey then
    intersectingIds.foldl
      (fun newSelection id =>
        if newSelection.contains id then newSelection else newSelection ++ [id])
      selectedElementIds
  else
    intersectingIds

/-- Modelled from the spec for claim C8: the distance from `p` to its
projection onto the segment with the projection parameter clamped to
`[0, 1]` is strictly below the threshold; a zero-length segment measures the
distance to the start point `(x1, y1)`. -/
def pointOnLineSpec (point : Point) (x1 y1 x2 y2 threshold : ℚ) : Prop :=
  let C := x2 - x1
  let D := y2 - y1
  let lenSq := C * C + D * D
  if lenSq = 0 then
    Real.sqrt (((point.x - x1) * (point.x - x1) +
        (point.y - y1) * (point.y - y1) : ℚ) : ℝ) < ((threshold : ℚ) : ℝ)
  else
    let param := ((point.x - x1) * C + (point.y - y1) * D) / lenSq
    let t := max 0 (min 1 param)
    let px := x1 + t * C
    let py := y1 + t * D
    Real.sqrt (((point.x - px) * (point.x - px) +
        (point.y - py) * (point.y - py) : ℚ) : ℝ) < ((threshold : ℚ) : ℝ)

/-! ## Structural (checkpointed) operations

Lifecycle (spec §3): each structural operation — add, delete single, delete
batch, clear-all, bulk-replace — calls `pushState`; `updateElement` does not.
`StructOp` ranges over exactly those five store actions. -/

inductive StructOp where
  | add (element : DrawingElement)
  | delete (id : String)
  | deleteBatch (ids : List String)
  | clearAll
  | bulkReplace (elements : List DrawingElement)

/-- Dispatch a structural operation to the corresponding store action. -/
def applyStructOp (s : AppState) : StructOp → AppState
  | .add element => addElement s element
  | .delete id => deleteElement s id
  | .deleteBatch ids => deleteElements s ids
  | .clearAll => clearCanvas s
  | .bulkReplace elements => setElements s elements

/-- Run a sequence of structural operations left to right. -/
def applyStructOps (s : AppState) (ops : List StructOp) : AppState :=
  ops.foldl applyStructOp s

/-- Patch `{ x: nx, y: ny }` as passed to `updateElement` by the dragging
branch of `handleMouseMove` (`colorUtils.ts` lines 485–496): the object
spread overrides the common `x`/`y` fields of whichever variant matches. -/
def dragPatch (nx ny : ℚ) : DrawingElement → DrawingElement
  | .rectangle b w h => .rectangle { b with x := nx, y := ny } w h
  | .circle b w h => .circle { b with x := nx, y := ny } w h
  | .line b x2 y2 => .line { b with x := nx, y := ny } x2 y2
  | .arrow b x2 y2 => .arrow { b with x := nx, y := ny } x2 y2
  | .text b t fs ff w h => .text { b with x := nx, y := ny } t fs ff w h
  | .freehand b ps => .freehand { b with x := nx, y := ny } ps

/-! ## Concrete fixtures -/

/-- A `BaseElement` with the store's default style fields. -/
def sampleBase (idv : String) (x y : ℚ) : BaseElement where
  id := idv
  x := x
  y := y
  strokeColor := DEFAULT_STROKE_COLOR
  fillColor := DEFAULT_FILL_COLOR
  strokeWidth := 2
  strokeStyle := .solid
  opacity := 1
  angle := 0
  fillPattern := .solid
  sloppiness := .moderate
  edgeRounding := .rounded

/-- A rectangle element with default style. -/
def sampleRect (idv : String) (x y w h : ℚ) : DrawingElement :=
  .rectangle (sampleBase idv x y) w h

def rectEx : DrawingElement := sampleRect ("rect-1") 10 10 50 30

def rect1 : DrawingElement := sampleRect ("r1") 0 0 10 10
def rect2 : DrawingElement := sampleRect ("r2") 20 0 10 10
def rect3 : DrawingElement := sampleRect ("r3") 40 0 10 10

/-! ## List helper lemmas -/

lemma contains_eq_true_iff (l : List String) (a : String) :
    l.contains a = true ↔ a ∈ l := List.elem_iff

/-! ## History manager lemmas -/

lemma pushState_elements (s : AppState) : (pushState s).elements = s.elements := rfl

lemma pushState_present (s : AppState) :
    (pushState s).history.present = s.elements := rfl

lemma pushState_past_of_lt (s : AppState)
    (h : s.history.past.length < HISTORY_LIMIT) :
    (pushState s).history.past = s.history.past ++ [s.history.present] := by
  have hc : ¬ HISTORY_LIMIT < s.history.past.length + 1 := by omega
  simp [pushState, hc]

/-- Every structural operation is `pushState` after a mutation that touches
only `elements` and `selectedElementIds`. -/
lemma applyStructOp_as_pushState (s : AppState) (op : StructOp) :
    ∃ els sel, applyStructOp s op =
      pushState { s with elements := els, selectedElementIds := sel } := by
  cases op with
  | add element => exact ⟨_, _, rfl⟩
  | delete id => exact ⟨_, _, rfl⟩
  | deleteBatch ids => exact ⟨_, _, rfl⟩
  | clearAll => exact ⟨_, _, rfl⟩
  | bulkReplace elements => exact ⟨_, _, rfl⟩

/-- Undoing as many times as structural operations were performed restores
the elements and the `past` that held before, provided the history had room
for every checkpoint. -/
lemma undo_iterate_applyStructOps (ops : List StructOp) :
    ∀ s : AppState, s.history.present = s.elements →
      s.history.past.length + ops.length ≤ HISTORY_LIMIT →
      (undo^[ops.length] (applyStructOps s ops)).elements = s.elements ∧
      (undo^[ops.length] (applyStructOps s ops)).history.past = s.history.past ∧
      (undo^[ops.length] (applyStructOps s ops)).history.present = s.elements := by
  induction ops with
  | nil =>
    intro s hpres _
    exact ⟨rfl, rfl, hpres⟩
  | cons op rest ih =>
    intro s hpres hlen
    obtain ⟨els, sel, hop⟩ := applyStructOp_as_pushState s op
    have hroom : s.history.past.length < HISTORY_LIMIT := by
      simp only [List.length_cons] at hlen
      omega
    have hpast1 : (applyStructOp s op).history.past =
        s.history.past ++ [s.history.present] := by
      rw [hop]
      exact pushState_past_of_lt _ hroom
    have hpres1 : (applyStructOp s op).history.present = (applyStructOp s op).elements := by
      rw [hop]; rfl
    have hlen1 : (applyStructOp s op).history.past.length + rest.length ≤ HISTORY_LIMIT := by
      rw [hpast1]
      simp only [List.length_append, List.length_cons, List.length_nil,
        List.length_cons] at hlen ⊢
      omega
    obtain ⟨h1, h2, h3⟩ := ih (applyStructOp s op) hpres1 hlen1
    have hfold : applyStructOps s (op :: rest) = applyStructOps (applyStructOp s op) rest := by
      simp [applyStructOps]
    have hiter : (op :: rest).length = rest.length + 1 := rfl
    rw [hfold, hiter, Function.iterate_succ_apply']
    set u := undo^[rest.length] (applyStructOps (applyStructOp s op) rest) with hu
    have hupast : u.history.past = s.history.past ++ [s.history.present] := by
      rw [h2, hpast1]
    have hulast : u.history.past.getLast? = some s.history.present := by
      rw [hupast]; exact List.getLast?_concat _
    have hundo : undo u =
        { u with
          elements := s.history.present
          history :=
            { past := u.history.past.dropLast
              present := s.history.present
              future := u.history.present :: u.history.future } } := by
      simp [undo, hulast]
    rw [hundo]
    refine ⟨hpres, ?_, hpres⟩
    rw [hupast]
    simp

/-- Claim C1, amended: starting from a store whose history is fresh
(`past = []`, `present` equal to the live collection, e.g. a freshly
initialized store), for every `1 ≤ N ≤ HISTORY_LIMIT`, performing `N`
structural (checkpointed) operations followed by `N` `undo()` calls restores
the exact pre-operation element collection and afterwards `canUndo()` is
false. -/
theorem structuralOps_undo_restores (s : AppState) (ops : List StructOp)
    (_hn : 1 ≤ ops.length) (hlim : ops.length ≤ HISTORY_LIMIT)
    (hpres : s.history.present = s.elements) (hpast : s.history.past = []) :
    (undo^[ops.length] (applyStructOps s ops)).elements = s.elements ∧
    canUndo (undo^[ops.length] (applyStructOps s ops)) = false := by
  have h := undo_iterate_applyStructOps ops s hpres
    (by rw [hpast]; simpa using hlim)
  refine ⟨h.1, ?_⟩
  have hp : (undo^[ops.length] (applyStructOps s ops)).history.past = [] := by
    rw [h.2.1, hpast]
  simp [canUndo, hp]

/-- Witness for C1's amended theorem: one `addElement` on the initial store,
one `undo`. -/
theorem structuralOps_undo_restores_witness :
    1 ≤ ([StructOp.add rectEx] : List StructOp).length ∧
    (undo^[([StructOp.add rectEx] : List StructOp).length]
        (applyStructOps initialState [StructOp.add rectEx])).elements =
      initialState.elements ∧
    canUndo (undo^[([StructOp.add rectEx] : List StructOp).length]
        (applyStructOps initialState [StructOp.add rectEx])) = false := by
  refine ⟨by decide, ?_, ?_⟩
  · exact (structuralOps_undo_restores initialState [StructOp.add rectEx]
      (by decide) (by decide) rfl rfl).1
  · exact (structuralOps_undo_restores initialState [StructOp.add rectEx]
      (by decide) (by decide) rfl rfl).2

set_option maxRecDepth 10000 in
/-- Counterexample to C1 as stated: with `N = 51 > HISTORY_LIMIT` additions,
the oldest snapshot (the empty pre-operation collection) is trimmed from
`past`, so 51 undos leave one element behind instead of restoring the empty
collection. -/
theorem structuralOps_undo_counterexample :
    (undo^[51] (applyStructOps initialState
        (List.replicate 51 (StructOp.add rectEx)))).elements ≠
      initialState.elements := by
  decide

/-- Claim C3: after every `pushState`, `past` holds exactly the
`min (old past length + 1) HISTORY_LIMIT` most recent snapshots (a suffix of
the old `past` extended by the old `present`, so the oldest are dropped and
`past` never exceeds `HISTORY_LIMIT`), `present` equals the element
collection at the time of the checkpoint, and `future` is cleared. -/
theorem pushState_invariant (s : AppState) :
    (pushState s).history.past.length ≤ HISTORY_LIMIT ∧
    (pushState s).history.past.length =
      min (s.history.past.length + 1) HISTORY_LIMIT ∧
    (pushState s).history.past <:+ s.history.past ++ [s.history.present] ∧
    (pushState s).history.present = s.elements ∧
    (pushState s).history.future = [] := by
  by_cases hc : HISTORY_LIMIT < s.history.past.length + 1
  · have hpos : (pushState s).history.past =
        (s.history.past ++ [s.history.present]).drop
          (s.history.past.length + 1 - HISTORY_LIMIT) := by
      simp [pushState, hc]
    refine ⟨?_, ?_, ?_, rfl, rfl⟩
    · rw [hpos]
      simp only [List.length_drop, List.length_append, List.length_cons,
        List.length_nil]
      omega
    · rw [hpos]
      simp only [List.length_drop, List.length_append, List.length_cons,
        List.length_nil]
      omega
    · rw [hpos]
      exact List.drop_suffix _ _
  · have hneg : (pushState s).history.past =
        s.history.past ++ [s.history.present] := by
      simp [pushState, hc]
    refine ⟨?_, ?_, ?_, rfl, rfl⟩
    · rw [hneg]
      simp only [List.length_append, List.length_cons, List.length_nil]
      omega
    · rw [hneg]
      simp only [List.length_append, List.length_cons, List.length_nil]
      omega
    · rw [hneg]

/-- Claim C2: on the empty store, `addElement` of a rectangle takes one
checkpoint, the drag patch through `updateElement` takes none, so a single
`undo` restores the pre-add snapshot: the element collection becomes empty —
the rectangle is removed entirely rather than returned to its pre-drag
position. -/
theorem add_drag_undo_removes_element :
    (updateElement (addElement initialState rectEx) rectEx.id
        (dragPatch 200 300)).elements = [dragPatch 200 300 rectEx] ∧
    (undo (updateElement (addElement initialState rectEx) rectEx.id
        (dragPatch 200 300))).elements = [] := by
  constructor
  · decide
  · decide

/-- Claim C4, amended: for every store state with non-empty `past`,
`redo()` immediately after `undo()` restores the exact `history` (in
particular the prior `present`), and sets the element collection to that
prior `present`; the whole state — element collection included — is restored
exactly whenever the collection equaled `present` before the undo (the
documented invariant, broken only by uncheckpointed patches). -/
theorem redo_undo_restores (s : AppState) (h : s.history.past ≠ []) :
    (redo (undo s)).history = s.history ∧
    (redo (undo s)).elements = s.history.present ∧
    (s.elements = s.history.present → redo (undo s) = s) := by
  obtain ⟨els0, tool0, sel0, cs0, hist0, sc0, fc0, bd0, bl0, lk0, nt0⟩ := s
  obtain ⟨past0, pres0, fut0⟩ := hist0
  simp only at h ⊢
  obtain ⟨l, a, hpast⟩ : ∃ l a, past0 = l ++ [a] := by
    rcases List.eq_nil_or_concat past0 with h0 | ⟨l, a, hl⟩
    · exact absurd h0 h
    · exact ⟨l, a, by simpa using hl⟩
  subst hpast
  have hget : (l ++ [a]).getLast? = some a := List.getLast?_concat _
  have hundo : undo ⟨els0, tool0, sel0, cs0, ⟨l ++ [a], pres0, fut0⟩,
        sc0, fc0, bd0, bl0, lk0, nt0⟩ =
      ⟨a, tool0, sel0, cs0, ⟨(l ++ [a]).dropLast, a, pres0 :: fut0⟩,
        sc0, fc0, bd0, bl0, lk0, nt0⟩ := by
    simp [undo, hget]
  have hredo : redo (undo ⟨els0, tool0, sel0, cs0, ⟨l ++ [a], pres0, fut0⟩,
        sc0, fc0, bd0, bl0, lk0, nt0⟩) =
      ⟨pres0, tool0, sel0, cs0, ⟨(l ++ [a]).dropLast ++ [a], pres0, fut0⟩,
        sc0, fc0, bd0, bl0, lk0, nt0⟩ := by
    rw [hundo, redo]
  have hback : (l ++ [a]).dropLast ++ [a] = l ++ [a] := by simp
  rw [hredo, hback]
  refine ⟨rfl, rfl, ?_⟩
  intro hinv
  rw [hinv]

/-- Witness for C4's amended theorem: after one `addElement` on the initial
store the invariant holds and `past` is non-empty, so `redo ∘ undo` is the
identity there. -/
theorem redo_undo_restores_witness :
    redo (undo (addElement initialState rectEx)) = addElement initialState rectEx := by
  exact (redo_undo_restores (addElement initialState rectEx) (by decide)).2.2 (by decide)

/-- Counterexample to C4 as stated: after an uncheckpointed drag the element
collection differs from `present`; `undo` then `redo` yields the `present`
snapshot, not the pre-undo collection, so the collection is not restored. -/
theorem redo_undo_counterexample :
    (updateElement (addElement initialState rectEx) rectEx.id
        (dragPatch 200 300)).history.past ≠ [] ∧
    (redo (undo (updateElement (addElement initialState rectEx) rectEx.id
        (dragPatch 200 300)))).elements ≠
      (updateElement (addElement initialState rectEx) rectEx.id
        (dragPatch 200 300)).elements := by
  constructor
  · decide
  · decide

/-- Claim C5: for every point, every zoom in `[MIN_ZOOM, MAX_ZOOM]` and every
offset, `toWorldCoordinates` after `toScreenCoordinates` is the identity. -/
theorem toWorld_toScreen_roundtrip (p : Point) (zoom offsetX offsetY : ℚ)
    (hmin : MIN_ZOOM ≤ zoom) (_hmax : zoom ≤ MAX_ZOOM) :
    toWorldCoordinates (toScreenCoordinates p zoom offsetX offsetY)
      zoom offsetX offsetY = p := by
  have hz : zoom ≠ 0 := by
    have h0 : (0 : ℚ) < MIN_ZOOM := by norm_num [MIN_ZOOM]
    exact ne_of_gt (lt_of_lt_of_le h0 hmin)
  cases p with
  | mk px py =>
    simp only [toScreenCoordinates, toWorldCoordinates, Point.mk.injEq]
    constructor
    · field_simp
    · field_simp

/-- Witness for C5 at `p = (3, 4)`, `zoom = 1`, offset `(2, 5)`. -/
theorem toWorld_toScreen_roundtrip_witness :
    MIN_ZOOM ≤ (1 : ℚ) ∧ (1 : ℚ) ≤ MAX_ZOOM ∧
    toWorldCoordinates (toScreenCoordinates ⟨3, 4⟩ 1 2 5) 1 2 5 = (⟨3, 4⟩ : Point) := by
  refine ⟨by norm_num [MIN_ZOOM], by norm_num [MAX_ZOOM], ?_⟩
  exact toWorld_toScreen_roundtrip ⟨3, 4⟩ 1 2 5 (by norm_num [MIN_ZOOM])
    (by norm_num [MAX_ZOOM])

/-- Claim C9: `updateElement` changes at most the element whose id matches —
length is preserved, every position holding an element with a different id is
unchanged, and when no element carries the id the entire store state
(history and selection included) is unchanged. -/
theorem updateElement_frame (s : AppState) (id : String)
    (updates : DrawingElement → DrawingElement) :
    (updateElement s id updates).elements.length = s.elements.length ∧
    (∀ i el, s.elements.get? i = some el → el.id ≠ id →
      (updateElement s id updates).elements.get? i = some el) ∧
    ((∀ el, el ∈ s.elements → el.id ≠ id) → updateElement s id updates = s) := by
  refine ⟨by simp [updateElement], ?_, ?_⟩
  · intro i el hget hne
    simp only [updateElement, List.get?_map, hget, Option.map_some']
    rw [if_neg hne]
  · intro hall
    have hmap : s.elements.map
        (fun el => if el.id = id then updates el else el) =
        s.elements.map (fun el => el) :=
      List.map_congr_left (fun el hel => by rw [if_neg (hall el hel)])
    simp only [updateElement, hmap, List.map_id']

/-- Witness for C9: a two-element store, patching the first element's
position leaves the second untouched, and patching an absent id leaves the
state unchanged. -/
theorem updateElement_frame_witness :
    (updateElement (setElements initialState [rect1, rect2]) ("r1")
        (dragPatch 200 300)).elements.length =
      (setElements initialState [rect1, rect2]).elements.length ∧
    (updateElement (setElements initialState [rect1, rect2]) ("r1")
        (dragPatch 200 300)).elements.get? 1 = some rect2 ∧
    updateElement (setElements initialState [rect1, rect2]) ("zzz")
        (dragPatch 200 300) = setElements initialState [rect1, rect2] := by
  refine ⟨?_, ?_, ?_⟩
  · exact (updateElement_frame (setElements initialState [rect1, rect2]) ("r1")
      (dragPatch 200 300)).1
  · exact (updateElement_frame (setElements initialState [rect1, rect2]) ("r1")
      (dragPatch 200 300)).2.1 1 rect2 (by decide) (by decide)
  · exact (updateElement_frame (setElements initialState [rect1, rect2]) ("zzz")
      (dragPatch 200 300)).2.2 (by decide)

/-- Claim C10: `deleteElement` and `deleteElements` drop the deleted ids from
`selectedElementIds` in the same update, so right after either delete no
selected id refers to a deleted element. -/
theorem delete_removes_selection (s : AppState) (id : String)
    (ids : List String) (i : String) :
    (deleteElement s id).selectedElementIds.contains id = false ∧
    ((deleteElements s ids).selectedElementIds.contains i && ids.contains i)
      = false := by
  constructor
  · rcases hmem : (deleteElement s id).selectedElementIds.contains id with _ | _
    · rfl
    · exfalso
      have hi : id ∈ (deleteElement s id).selectedElementIds :=
        (contains_eq_true_iff _ _).mp hmem
      simp only [deleteElement, pushState] at hi
      have hf := List.of_mem_filter hi
      simp at hf
  · rcases hmem : (deleteElements s ids).selectedElementIds.contains i with _ | _
    · simp
    · have hi : i ∈ (deleteElements s ids).selectedElementIds :=
        (contains_eq_true_iff _ _).mp hmem
      simp only [deleteElements, pushState] at hi
      have hf := List.of_mem_filter hi
      simp only [Bool.not_eq_true'] at hf
      have hnotin : i ∉ ids := fun hin => by
        have hcon := (contains_eq_true_iff ids i).mpr hin
        rw [hf] at hcon
        exact Bool.false_ne_true hcon
      simp [hnotin]

/-! ## Box-selection lemmas -/

/-- Membership in the additive fold of `handleMouseUp`: the fold appends
exactly the ids not already present, so the result holds the union. -/
lemma mem_additive_fold (ids : List String) :
    ∀ (init : List String) (i : String),
      (i ∈ ids.foldl
        (fun newSelection id =>
          if newSelection.contains id then newSelection else newSelection ++ [id])
        init) ↔ i ∈ init ∨ i ∈ ids := by
  induction ids with
  | nil => intro init i; simp
  | cons id rest ih =>
    intro init i
    simp only [List.foldl_cons]
    by_cases hc : init.contains id = true
    · rw [if_pos hc, ih]
      have hid : id ∈ init := (contains_eq_true_iff _ _).mp hc
      constructor
      · rintro (hi | hi)
        · exact Or.inl hi
        · exact Or.inr (List.mem_cons_of_mem _ hi)
      · rintro (hi | hi)
        · exact Or.inl hi
        · rcases List.mem_cons.mp hi with rfl | hi
          · exact Or.inl hid
          · exact Or.inr hi
    · rw [if_neg hc, ih]
      simp only [List.mem_append, List.mem_singleton, List.mem_cons]
      tauto

/-- The additive fold of `handleMouseUp` preserves `Nodup` of the selection. -/
lemma nodup_additive_fold (ids : List String) :
    ∀ init : List String, init.Nodup →
      (ids.foldl
        (fun newSelection id =>
          if newSelection.contains id then newSelection else newSelection ++ [id])
        init).Nodup := by
  induction ids with
  | nil => intro init h; simpa
  | cons id rest ih =>
    intro init h
    simp only [List.foldl_cons]
    by_cases hc : init.contains id = true
    · rw [if_pos hc]; exact ih init h
    · rw [if_neg hc]
      refine ih _ ?_
      have hid : id ∉ init := fun hin =>
        hc ((contains_eq_true_iff init id).mpr hin)
      simp [List.nodup_append, h, hid]

/-- Claim C6: completing the box-selection gesture selects exactly the ids of
the elements whose AABB intersects the drag box. In replace mode the new
selection holds an id iff some element carries it and intersects the box; in
additive (shift) mode the new selection is the union with the prior
selection; both results are duplicate-free (given unique element ids and a
duplicate-free prior selection). -/
theorem boxSelection_selects_intersecting (elements : List DrawingElement)
    (sel : List String) (bs be : Point)
    (hsel : sel.Nodup) (hids : (elements.map DrawingElement.id).Nodup) :
    (∀ i : String,
      i ∈ boxSelectionResult elements sel bs be false ↔
        ∃ el ∈ elements, el.id = i ∧
          elementIntersectsBox el (min bs.x be.x) (min bs.y be.y)
            (max bs.x be.x) (max bs.y be.y) = true) ∧
    (boxSelectionResult elements sel bs be false).Nodup ∧
    (∀ i : String,
      i ∈ boxSelectionResult elements sel bs be true ↔
        i ∈ sel ∨ ∃ el ∈ elements, el.id = i ∧
          elementIntersectsBox el (min bs.x be.x) (min bs.y be.y)
            (max bs.x be.x) (max bs.y be.y) = true) ∧
    (boxSelectionResult elements sel bs be true).Nodup := by
  have hreplace : boxSelectionResult elements sel bs be false =
      (elements.filter (fun element => elementIntersectsBox element
          (min bs.x be.x) (min bs.y be.y) (max bs.x be.x) (max bs.y be.y))).map
        (fun el => el.id) := by
    simp [boxSelectionResult]
  have hmemfilter : ∀ i : String,
      i ∈ (elements.filter (fun element => elementIntersectsBox element
          (min bs.x be.x) (min bs.y be.y) (max bs.x be.x) (max bs.y be.y))).map
        (fun el => el.id) ↔
        ∃ el ∈ elements, el.id = i ∧
          elementIntersectsBox el (min bs.x be.x) (min bs.y be.y)
            (max bs.x be.x) (max bs.y be.y) = true := by
    intro i
    simp only [List.mem_map, List.mem_filter]
    constructor
    · rintro ⟨el, ⟨hmem, hint⟩, hid⟩
      exact ⟨el, hmem, hid, hint⟩
    · rintro ⟨el, hmem, hid, hint⟩
      exact ⟨el, ⟨hmem, hint⟩, hid⟩
  have hnodupfilter :
      ((elements.filter (fun element => elementIntersectsBox element
          (min bs.x be.x) (min bs.y be.y) (max bs.x be.x) (max bs.y be.y))).map
        (fun el => el.id)).Nodup := by
    have hsub : List.Sublist
        (elements.filter (fun element => elementIntersectsBox element
          (min bs.x be.x) (min bs.y be.y) (max bs.x be.x) (max bs.y be.y)))
        elements :=
      List.filter_sublist elements
    exact List.Nodup.sublist (hsub.map (fun el => el.id)) hids
  have hadd : boxSelectionResult elements sel bs be true =
      ((elements.filter (fun element => elementIntersectsBox element
          (min bs.x be.x) (min bs.y be.y) (max bs.x be.x) (max bs.y be.y))).map
        (fun el => el.id)).foldl
        (fun newSelection id =>
          if newSelection.contains id then newSelection else newSelection ++ [id])
        sel := by
    simp [boxSelectionResult]
  refine ⟨?_, ?_, ?_, ?_⟩
  · intro i
    rw [hreplace]
    exact hmemfilter i
  · rw [hreplace]
    exact hnodupfilter
  · intro i
    rw [hadd, mem_additive_fold]
    rw [hmemfilter i]
  · rw [hadd]
    exact nodup_additive_fold _ sel hsel

/-- Witness for C6: three disjoint rectangles, a drag box covering exactly
the first two, prior selection holding the third id. -/
theorem boxSelection_selects_intersecting_witness :
    (("r1" : String) ∈ boxSelectionResult [rect1, rect2, rect3]
      [("r3" : String)] ⟨-1, -1⟩ ⟨31, 11⟩ false) ∧
    (boxSelectionResult [rect1, rect2, rect3] [("r3" : String)]
      ⟨-1, -1⟩ ⟨31, 11⟩ true).Nodup := by
  have h := boxSelection_selects_intersecting [rect1, rect2, rect3]
    [("r3" : String)] ⟨-1, -1⟩ ⟨31, 11⟩ (by decide) (by decide)
  refine ⟨(h.1 ("r1" : String)).mpr ⟨rect1, by simp, rfl, ?_⟩, h.2.2.2⟩
  norm_num [elementIntersectsBox, getElementBounds, rect1, sampleRect, sampleBase]

/-- Claim C7: `elementsToSVG` on a single rectangle at `(10, 10, 50, 30)`
emits exactly one `<rect>` tag with `x="10" y="10" width="50" height="30"`
inside an `<svg>` root whose `viewBox` is `"-10 -10 90 70"` (the union AABB
`(10, 10, 60, 40)` padded by 20 on every side). The full output string is
computed, for any interpretation of the trigonometric operations (the
rectangle branch never consults them). -/
theorem elementsToSVG_single_rectangle (trig : TrigOps) :
    elementsToSVG trig [rectEx] =
      "<svg xmlns=\"http://www.w3.org/2000/svg\" width=\"90\" height=\"70\" viewBox=\"-10 -10 90 70\"><rect x=\"10\" y=\"10\" width=\"50\" height=\"30\" fill=\"#FFFFFF\" stroke=\"#FFFFFF\" stroke-width=\"2\" opacity=\"1\"/></svg>" := by
  have hb : getBoundingBox [rectEx] = ⟨10, 10, 60, 40⟩ := by
    norm_num [getBoundingBox, getElementBounds, rectEx, sampleRect, sampleBase]
  simp only [elementsToSVG, hb]
  norm_num
  rfl

/-- Claim C8: `pointOnLine` holds iff the Euclidean distance from the point
to its clamped projection onto the segment is strictly below the threshold,
the zero-length segment degenerating to the start point. -/
theorem pointOnLine_iff_clamped_projection (point : Point)
    (x1 y1 x2 y2 threshold : ℚ) :
    pointOnLine point x1 y1 x2 y2 threshold ↔
      pointOnLineSpec point x1 y1 x2 y2 threshold := by
  simp only [pointOnLine, pointOnLineSpec]
  by_cases hz : (x2 - x1) * (x2 - x1) + (y2 - y1) * (y2 - y1) = 0
  · simp only [if_neg (not_not_intro hz), if_pos hz]
    norm_num
  · simp only [if_pos hz, if_neg hz]
    set param := ((point.x - x1) * (x2 - x1) + (point.y - y1) * (y2 - y1)) /
      ((x2 - x1) * (x2 - x1) + (y2 - y1) * (y2 - y1)) with hparam
    by_cases hneg : param < 0
    · have h1 : min 1 param = param :=
        min_eq_right (le_of_lt (lt_of_lt_of_le hneg (by norm_num)))
      have h2 : max 0 (min 1 param) = 0 := by
        rw [h1]; exact max_eq_left (le_of_lt hneg)
      simp only [if_pos hneg, h2]
      norm_num
    · by_cases hgt : param > 1
      · have h1 : min 1 param = 1 := min_eq_left (le_of_lt hgt)
        have h2 : max 0 (min 1 param) = 1 := by
          rw [h1]; exact max_eq_right zero_le_one
        simp only [if_neg hneg, if_pos hgt, h2]
        have e1 : x1 + 1 * (x2 - x1) = x2 := by ring
        have e2 : y1 + 1 * (y2 - y1) = y2 := by ring
        rw [e1, e2]
      · have h0 : 0 ≤ param := le_of_not_lt hneg
        have h1 : min 1 param = param := min_eq_right (le_of_not_lt hgt)
        have h2 : max 0 (min 1 param) = param := by
          rw [h1]; exact max_eq_right h0
        simp only [if_neg hneg, if_neg hgt, h2]

end Slate
